import Mathlib

/-!
# Verification of the `click-llm` catalog builder and injection layer

This file is a shallow embedding, in Lean 4, of the two core modules of the
`click-llm` Python package:

* `src/click_llm/catalog.py` — type coercion (`_jsonable`), parameter and
  command serialization (`_serialize_*`), catalog building
  (`build_click_catalog`, `_flatten`) and text rendering
  (`render_catalog_text`, `_usage_for`, `_fmt`);
* `src/click_llm/inject.py` — the `attach` operation, the `autopatch` /
  `unpatch` state machine over the module globals, and the patched
  resolution (`patched_get_command`) and listing (`patched_list_commands`)
  hooks.

Python values that can reach `_jsonable` are modelled by an inductive type
`PyVal`; Click commands, parameters and contexts are modelled by records
carrying exactly the attributes the source reads.  Python string builtins
(`str.strip`, `str.join`, `str.upper`, `str.lower`) are modelled by
executable character-list functions, and `repr` / `json.dumps` by
explicit, executable models whose precise text matters only to the repr
fallback branches.  Stateful code (module globals mutated by
`autopatch` / `unpatch`) becomes explicit state passing over a
`PatchWorld` record, with a `Reachable` predicate for the induced state
machine.
-/

namespace ClickLLM

/-! ## Models of Python string builtins -/

/-- Model of Python `str.strip()` (drop leading and trailing whitespace). -/
def pyStrip (s : String) : String :=
  ⟨((s.data.dropWhile Char.isWhitespace).reverse.dropWhile Char.isWhitespace).reverse⟩

/-- Model of Python `sep.join(parts)`. -/
def pyJoin (sep : String) : List String → String
  | [] => ""
  | [x] => x
  | x :: xs => x ++ sep ++ pyJoin sep xs

/-- Model of Python `str.upper()` (ASCII-level, which covers the identifiers
Click produces). -/
def pyUpper (s : String) : String := ⟨s.data.map Char.toUpper⟩

/-- Model of Python `str.lower()`. -/
def pyLower (s : String) : String := ⟨s.data.map Char.toLower⟩

/-- Model of the Python truthiness chain `a or b` for an optional string
`a` (`None` and `""` are falsy). -/
def strOr (a : Option String) (b : String) : String :=
  match a with
  | some s => if s = "" then b else s
  | none => b

/-- Model of Python `format(b)` for a `bool` (`"True"` / `"False"`). -/
def pyBoolStr (b : Bool) : String := if b then "True" else "False"

/-! ## Sorting

Python's `sorted` / `list.sort` on `(name, value)` pairs with pairwise
distinct names orders by name; we model it with an insertion sort
parameterized by a boolean comparison. -/

/-- Insert `a` in front of the first element `b` with `le a b`. -/
def insertLe (le : α → α → Bool) (a : α) : List α → List α
  | [] => [a]
  | b :: bs => if le a b then a :: b :: bs else b :: insertLe le a bs

/-- Insertion sort by the boolean comparison `le`. -/
def sortLe (le : α → α → Bool) : List α → List α
  | [] => []
  | x :: xs => insertLe le x (sortLe le xs)

theorem mem_insertLe (le : α → α → Bool) (a x : α) (l : List α) :
    x ∈ insertLe le a l ↔ x = a ∨ x ∈ l := by
  induction l with
  | nil => simp [insertLe]
  | cons b bs ih =>
    by_cases h : le a b = true
    · simp [insertLe, h]
    · simp [insertLe, h, ih]
      tauto

theorem mem_sortLe (le : α → α → Bool) (x : α) (l : List α) :
    x ∈ sortLe le l ↔ x ∈ l := by
  induction l with
  | nil => simp [sortLe]
  | cons b bs ih => simp [sortLe, mem_insertLe, ih]

theorem sizeOf_insertLe [SizeOf α] (le : α → α → Bool) (a : α) (l : List α) :
    sizeOf (insertLe le a l) = 1 + sizeOf a + sizeOf l := by
  induction l with
  | nil => simp [insertLe]
  | cons b bs ih =>
    by_cases h : le a b = true
    · simp [insertLe, h]
    · simp [insertLe, h, ih]
      omega

theorem sizeOf_sortLe [SizeOf α] (le : α → α → Bool) (l : List α) :
    sizeOf (sortLe le l) = sizeOf l := by
  induction l with
  | nil => simp [sortLe]
  | cons b bs ih => simp [sortLe, sizeOf_insertLe, ih]

/-! ## JSON-safe values

The target space of `_jsonable`: `null`, strings, numbers, booleans,
arrays of JSON-safe values, objects with string keys. -/

inductive Json where
  | null
  | str (s : String)
  | num (n : Int)
  | bool (b : Bool)
  | arr (xs : List Json)
  | obj (kvs : List (String × Json))

/-! ## Python metadata values

`PyVal` models the values Click parameter metadata can hold when it
reaches `_jsonable`.  Python `float` defaults are not modelled (no claim
involves them); `num` carries the integers that appear in the claims. -/

inductive PyVal where
  | pyNone
  | pyStr (s : String)
  | pyInt (n : Int)
  | pyBool (b : Bool)
  /-- An `enum.Enum` member: the name of its class, the member name, and
  the payload `value.value`. -/
  | pyEnum (typeName memberName : String) (payload : PyVal)
  /-- A `pathlib.Path`; the field is its string form `str(value)`. -/
  | pyPath (s : String)
  | pyTuple (xs : List PyVal)
  | pyList (xs : List PyVal)
  | pyDict (kvs : List (PyVal × PyVal))
  /-- A `set`; note `_jsonable` has no branch for sets. -/
  | pySet (xs : List PyVal)
  /-- A callable: its `__name__` when defined, and its class name
  (`value.__class__.__name__`). -/
  | pyCallable (functionName : Option String) (className : String)
  /-- Any other object, identified by its `repr` string. -/
  | pyOther (reprText : String)

mutual

/-- Model of CPython `repr` for `PyVal`.  It is only consulted by the
fallback branches of `_jsonable` (sets and unrecognized objects); memory
addresses that CPython embeds in function/object reprs are elided. -/
def pyRepr : PyVal → String
  | .pyNone => "None"
  | .pyStr s => "\x27" ++ s ++ "\x27"
  | .pyInt n => toString n
  | .pyBool b => pyBoolStr b
  | .pyEnum typeName memberName _ => "<" ++ typeName ++ "." ++ memberName ++ ">"
  | .pyPath s => "PosixPath(\x27" ++ s ++ "\x27)"
  | .pyTuple xs => "(" ++ pyJoin ", " (pyReprList xs) ++ ")"
  | .pyList xs => "[" ++ pyJoin ", " (pyReprList xs) ++ "]"
  | .pyDict kvs => "\x7b" ++ pyJoin ", " (pyReprKV kvs) ++ "\x7d"
  | .pySet xs =>
    match xs with
    | [] => "set()"
    | ys => "\x7b" ++ pyJoin ", " (pyReprList ys) ++ "\x7d"
  | .pyCallable functionName className =>
    "<" ++ className ++ " " ++ functionName.getD "?" ++ ">"
  | .pyOther reprText => reprText

def pyReprList : List PyVal → List String
  | [] => []
  | v :: vs => pyRepr v :: pyReprList vs

def pyReprKV : List (PyVal × PyVal) → List String
  | [] => []
  | (k, v) :: rest => (pyRepr k ++ ": " ++ pyRepr v) :: pyReprKV rest

end

/-- Model of Python `str(value)`, used by `_jsonable` for dictionary
keys. -/
def pyStrOf (v : PyVal) : String :=
  match v with
  | .pyStr s => s
  | .pyPath s => s
  | v => pyRepr v

mutual

/-- Embedding of `_jsonable` (catalog.py lines 14–35): convert Click
metadata values into JSON-safe values.  The Python `isinstance` chain is
rendered as a match on the disjoint `PyVal` constructors, in the source's
branch order; `callable(value)` holds exactly for `pyCallable`, and
everything with no earlier branch falls back to `repr(value)`. -/
def jsonable : PyVal → Json
  | .pyNone => .null
  | .pyStr s => .str s
  | .pyInt n => .num n
  | .pyBool b => .bool b
  | .pyEnum typeName memberName payload =>
    -- Click uses Sentinel.UNSET for required arguments with no default.
    if typeName = "Sentinel" && memberName = "UNSET" then .null
    else
      match payload with
      | .pyStr s => .str s
      | .pyInt n => .num n
      | .pyBool b => .bool b
      | _ => .str memberName
  | .pyPath s => .str s
  | .pyTuple xs => .arr (jsonableList xs)
  | .pyList xs => .arr (jsonableList xs)
  | .pyDict kvs => .obj (jsonableKV kvs)
  | .pyCallable functionName className =>
    .str ("<callable:" ++ functionName.getD className ++ ">")
  | .pySet xs => .str (pyRepr (.pySet xs))
  | .pyOther reprText => .str (pyRepr (.pyOther reprText))

def jsonableList : List PyVal → List Json
  | [] => []
  | v :: vs => jsonable v :: jsonableList vs

def jsonableKV : List (PyVal × PyVal) → List (String × Json)
  | [] => []
  | (k, v) :: rest => (pyStrOf k, jsonable v) :: jsonableKV rest

end

theorem jsonableList_eq_map (xs : List PyVal) :
    jsonableList xs = xs.map jsonable := by
  induction xs with
  | nil => simp [jsonableList]
  | cons v vs ih => simp [jsonableList, ih]

theorem jsonableKV_eq_map (kvs : List (PyVal × PyVal)) :
    jsonableKV kvs = kvs.map (fun kv => (pyStrOf kv.1, jsonable kv.2)) := by
  induction kvs with
  | nil => simp [jsonableKV]
  | cons kv rest ih => obtain ⟨k, v⟩ := kv; simp [jsonableKV, ih]

/-! ## Click parameter and type descriptors -/

/-- The attributes of a `click.ParamType` read by `_serialize_type`:
`name`, the implementation class name, and, exactly for `click.Choice`
instances, the choice list and its case-sensitivity flag (`choices = none`
models "not a `Choice`"). -/
structure TypeInfo where
  name : String
  className : String
  choices : Option (List String × Bool)

/-- The output record of `_serialize_type` (catalog.py lines 38–46). -/
structure SType where
  name : String
  className : String
  choices : Option (List String × Bool)

/-- Embedding of `_serialize_type`: the serialized `name` falls back to the
lowercased class name when `param_type.name` is empty (Python-falsy). -/
def serializeType (paramType : TypeInfo) : SType :=
  { name := if paramType.name = "" then pyLower paramType.className else paramType.name
    className := paramType.className
    choices := paramType.choices }

/-- A `click.Parameter` as read by `_serialize_params`: a `click.Option`,
a `click.Argument`, or a parameter of any other kind (silently skipped by
the serializer). -/
inductive Param where
  | option (name : Option String) (opts secondaryOpts : List String)
      (helpText : Option String) (required : Bool) (defaultV : PyVal)
      (multiple : Bool) (nargs : Int) (isFlag countAttr : Bool)
      (paramType : TypeInfo)
  | argument (name : Option String) (required : Bool) (defaultV : PyVal)
      (nargs : Int) (paramType : TypeInfo)
  | otherKind

/-- The serialized form of one parameter, i.e. the dict produced by
`_serialize_option` / `_serialize_argument`. -/
inductive SParam where
  | option (name : String) (flags : List String) (helpText : String)
      (required : Bool) (defaultV : Json) (multiple : Bool) (nargs : Int)
      (isFlag countAttr : Bool) (paramType : SType)
  | argument (name : String) (required : Bool) (defaultV : Json)
      (nargs : Int) (paramType : SType)

/-- Embedding of `_serialize_params` (catalog.py lines 76–83), with
`_serialize_option` and `_serialize_argument` inlined per branch; other
parameter kinds are skipped. -/
def serializeParams : List Param → List SParam
  | [] => []
  | .option name opts secondaryOpts helpText required defaultV multiple
      nargs isFlag countAttr paramType :: rest =>
    .option (strOr name "") (opts ++ secondaryOpts) (pyStrip (strOr helpText ""))
      required (jsonable defaultV) multiple nargs isFlag countAttr
      (serializeType paramType) :: serializeParams rest
  | .argument name required defaultV nargs paramType :: rest =>
    .argument (strOr name "") required (jsonable defaultV) nargs
      (serializeType paramType) :: serializeParams rest
  | .otherKind :: rest => serializeParams rest

/-! ## Click commands and catalog entries -/

/-- The attributes of a `click.Command` read by the catalog builder.
`deprecated` carries the truthiness of the Click attribute (the source
applies `bool(...)` to it, so only its truthiness is observable). -/
structure CmdData where
  shortHelp : Option String
  help : Option String
  hidden : Bool
  deprecated : Bool
  params : List Param

/-- A Click command tree: a `click.Group` carries its `commands` dict as
an insertion-ordered association list with (in real Click) pairwise
distinct names; any other `click.Command` is a leaf. -/
inductive Cmd where
  | leaf (data : CmdData)
  | group (data : CmdData) (commands : List (String × Cmd))

/-- The shared command attributes of a node. -/
def Cmd.data : Cmd → CmdData
  | .leaf d => d
  | .group d _ => d

/-- One node of the nested catalog tree: the dict built by
`_serialize_command`. -/
inductive Entry where
  | mk (path name kind summary : String) (hidden deprecated : Bool)
      (params : List SParam) (subcommands : List Entry)

def Entry.path : Entry → String | .mk p _ _ _ _ _ _ _ => p
def Entry.name : Entry → String | .mk _ n _ _ _ _ _ _ => n
def Entry.kind : Entry → String | .mk _ _ k _ _ _ _ _ => k
def Entry.summary : Entry → String | .mk _ _ _ s _ _ _ _ => s
def Entry.hidden : Entry → Bool | .mk _ _ _ _ h _ _ _ => h
def Entry.deprecated : Entry → Bool | .mk _ _ _ _ _ d _ _ => d
def Entry.params : Entry → List SParam | .mk _ _ _ _ _ _ pa _ => pa
def Entry.subcommands : Entry → List Entry | .mk _ _ _ _ _ _ _ subs => subs

/-- The comparison `sorted(command.commands.items())` uses: Python sorts
the `(name, command)` tuples, and with pairwise distinct dict keys this
orders by name. -/
def pairNameLe (a b : String × Cmd) : Bool := decide (a.1 ≤ b.1)

mutual

/-- Embedding of `_serialize_command` (catalog.py lines 86–118).  The
`isinstance(command, click.Group)` tests become the constructor match;
`path_parts[-1]` is total in the source because `path_parts` is never
empty, rendered here with default `""`. -/
def serializeCommand (command : Cmd) (pathParts : List String)
    (includeHidden : Bool) (isRoot : Bool) : Option Entry :=
  match command with
  | .leaf data =>
    if data.hidden && !includeHidden && !isRoot then none
    else
      some (.mk (pyJoin " " pathParts) (pathParts.getLastD "") "command"
        (pyStrip (strOr data.shortHelp (strOr data.help "")))
        data.hidden data.deprecated (serializeParams data.params) [])
  | .group data cmds =>
    if data.hidden && !includeHidden && !isRoot then none
    else
      some (.mk (pyJoin " " pathParts) (pathParts.getLastD "") "group"
        (pyStrip (strOr data.shortHelp (strOr data.help "")))
        data.hidden data.deprecated (serializeParams data.params)
        (serializeChildren (sortLe pairNameLe cmds) pathParts includeHidden))
termination_by sizeOf command
decreasing_by
  simp only [sizeOf_sortLe, Cmd.group.sizeOf_spec]
  omega

/-- The `for child_name, child in sorted(...)` loop body of
`_serialize_command`: recurse with `include_hidden` inherited and
`is_root = False`, keeping only the non-`None` child entries. -/
def serializeChildren (children : List (String × Cmd)) (pathParts : List String)
    (includeHidden : Bool) : List Entry :=
  match children with
  | [] => []
  | (childName, child) :: rest =>
    match serializeCommand child (pathParts ++ [childName]) includeHidden false with
    | none => serializeChildren rest pathParts includeHidden
    | some entry => entry :: serializeChildren rest pathParts includeHidden
termination_by sizeOf children
decreasing_by
  all_goals simp only [List.cons.sizeOf_spec, Prod.mk.sizeOf_spec]
  all_goals omega

end

/-! ## Flattened entries and the catalog record -/

/-- One element of the flattened `commands` list: the same node shape as
`Entry` minus `subcommands` (catalog.py lines 121–135). -/
structure FlatEntry where
  path : String
  name : String
  kind : String
  summary : String
  hidden : Bool
  deprecated : Bool
  params : List SParam

mutual

/-- Embedding of `_flatten` (catalog.py lines 121–135): the head is the
projection of the node itself, followed by the flattening of each child in
order (`flat.extend(_flatten(child))`). -/
def flatten : Entry → List FlatEntry
  | .mk path name kind summary hidden deprecated params subcommands =>
    { path := path, name := name, kind := kind, summary := summary,
      hidden := hidden, deprecated := deprecated, params := params } ::
      flattenList subcommands

def flattenList : List Entry → List FlatEntry
  | [] => []
  | entry :: rest => flatten entry ++ flattenList rest

end

mutual

/-- Specification-side definition: the pre-order traversal of a catalog
tree (the node, then the traversals of its children in order). -/
def preorder : Entry → List Entry
  | .mk path name kind summary hidden deprecated params subcommands =>
    .mk path name kind summary hidden deprecated params subcommands ::
      preorderList subcommands

def preorderList : List Entry → List Entry
  | [] => []
  | entry :: rest => preorder entry ++ preorderList rest

end

/-- Specification-side definition: the projection of a tree node onto the
flattened-entry shape (same `path`, `name`, `kind`, `summary`, `hidden`,
`deprecated` and `params`; `subcommands` dropped). -/
def projectEntry (entry : Entry) : FlatEntry :=
  { path := entry.path, name := entry.name, kind := entry.kind,
    summary := entry.summary, hidden := entry.hidden,
    deprecated := entry.deprecated, params := entry.params }

/-- The catalog record built by `build_click_catalog` (a dict in the
source): fixed `catalog_version`, generation timestamp, root name, the
nested tree, and the flattened `commands` list. -/
structure Catalog where
  catalogVersion : Nat
  generatedAt : String
  rootCommand : String
  tree : Entry
  commands : List FlatEntry

/-- Embedding of `build_click_catalog` (catalog.py lines 138–157).  The
wall-clock timestamp `dt.datetime.now(...).isoformat()` is an input `now`;
the source's `assert tree is not None` is modelled by the `Option` result
(`none` would be the assertion failure, proved impossible below). -/
def buildClickCatalog (root : Cmd) (rootName : String) (includeHidden : Bool)
    (now : String) : Option Catalog :=
  (serializeCommand root [rootName] includeHidden true).map fun tree =>
    { catalogVersion := 1
      generatedAt := now
      rootCommand := rootName
      tree := tree
      commands := flatten tree }

/-- The root call of `_serialize_command` always yields an entry: with
`is_root = True` the hidden check is skipped, so the source's assertion
cannot fire. -/
theorem serializeCommand_root_isSome (command : Cmd) (pathParts : List String)
    (includeHidden : Bool) :
    (serializeCommand command pathParts includeHidden true).isSome := by
  cases command <;> simp [serializeCommand]

/-- `build_click_catalog` always returns a catalog (the root entry is
always present, hidden or not). -/
theorem buildClickCatalog_isSome (root : Cmd) (rootName : String)
    (includeHidden : Bool) (now : String) :
    (buildClickCatalog root rootName includeHidden now).isSome := by
  cases h : serializeCommand root [rootName] includeHidden true with
  | none =>
    have hs := serializeCommand_root_isSome root [rootName] includeHidden
    simp [h] at hs
  | some tree => simp [buildClickCatalog, h]

/-! ## Filtering and flattening lemmas -/

/-- A hidden non-root node is dropped together with its entire subtree:
`_serialize_command` returns `None` before looking at any child. -/
theorem serialize_hidden_none (c : Cmd) (p : List String)
    (h : c.data.hidden = true) :
    serializeCommand c p false false = none := by
  cases c <;> simp_all [serializeCommand, Cmd.data]

theorem mem_serializeChildren (l : List (String × Cmd)) (p : List String)
    (includeHidden : Bool) (e : Entry) (he : e ∈ serializeChildren l p includeHidden) :
    ∃ name child, (name, child) ∈ l ∧
      serializeCommand child (p ++ [name]) includeHidden false = some e := by
  induction l with
  | nil => simp [serializeChildren] at he
  | cons hd rest ih =>
    obtain ⟨name, child⟩ := hd
    rw [serializeChildren] at he
    cases hser : serializeCommand child (p ++ [name]) includeHidden false with
    | none =>
      rw [hser] at he
      obtain ⟨n, c, hmem, hs⟩ := ih he
      exact ⟨n, c, List.mem_cons_of_mem _ hmem, hs⟩
    | some entry =>
      rw [hser] at he
      rcases List.mem_cons.mp he with h | h
      · exact ⟨name, child, List.mem_cons_self _ _, by rw [hser, h]⟩
      · obtain ⟨n, c, hmem, hs⟩ := ih h
        exact ⟨n, c, List.mem_cons_of_mem _ hmem, hs⟩

theorem mem_preorderList (l : List Entry) (x : Entry) :
    x ∈ preorderList l ↔ ∃ e ∈ l, x ∈ preorder e := by
  induction l with
  | nil => simp [preorderList]
  | cons e rest ih => simp [preorderList, ih]

theorem sizeOf_child_lt (name : String) (child : Cmd) (data : CmdData)
    (cmds : List (String × Cmd)) (h : (name, child) ∈ cmds) :
    sizeOf child < sizeOf (Cmd.group data cmds) := by
  have h1 := List.sizeOf_lt_of_mem h
  simp only [Prod.mk.sizeOf_spec, Cmd.group.sizeOf_spec] at *
  omega

/-- Every entry reachable from a non-root serialization under
`include_hidden = False` is unhidden (strong induction on the tree
size). -/
theorem serialize_unhidden_aux : ∀ (n : Nat) (c : Cmd), sizeOf c ≤ n →
    ∀ (p : List String) (e : Entry), serializeCommand c p false false = some e →
    ∀ x ∈ preorder e, x.hidden = false := by
  intro n
  induction n with
  | zero =>
    intro c hc
    exfalso
    cases c <;> simp only [Cmd.leaf.sizeOf_spec, Cmd.group.sizeOf_spec] at hc <;> omega
  | succ n ihn =>
    intro c hc p e hser x hx
    cases c with
    | leaf data =>
      cases hh : data.hidden with
      | true => simp [serializeCommand, hh] at hser
      | false =>
        simp [serializeCommand, hh] at hser
        subst hser
        simp [preorder, preorderList] at hx
        subst hx
        simp [Entry.hidden, hh]
    | group data cmds =>
      cases hh : data.hidden with
      | true => simp [serializeCommand, hh] at hser
      | false =>
        simp [serializeCommand, hh] at hser
        subst hser
        rw [preorder] at hx
        rcases List.mem_cons.mp hx with h | h
        · subst h; simp [Entry.hidden, hh]
        · obtain ⟨e', he', hx'⟩ := (mem_preorderList _ _).mp h
          obtain ⟨name, child, hmem, hs⟩ := mem_serializeChildren _ _ _ _ he'
          have hmem' : (name, child) ∈ cmds := (mem_sortLe _ _ _).mp hmem
          have hlt := sizeOf_child_lt name child data cmds hmem'
          exact ihn child (by omega) _ e' hs x hx'

/-- All entries strictly below a root serialization (hidden root allowed)
are unhidden when `include_hidden = False`. -/
theorem serialize_subEntries_unhidden (c : Cmd) (p : List String) (t : Entry)
    (h : serializeCommand c p false true = some t) :
    ∀ x ∈ preorderList t.subcommands, x.hidden = false := by
  intro x hx
  cases c with
  | leaf data =>
    simp [serializeCommand] at h
    subst h
    simp [Entry.subcommands, preorderList] at hx
  | group data cmds =>
    simp [serializeCommand] at h
    subst h
    simp only [Entry.subcommands] at hx
    obtain ⟨e', he', hx'⟩ := (mem_preorderList _ _).mp hx
    obtain ⟨name, child, hmem, hs⟩ := mem_serializeChildren _ _ _ _ he'
    exact serialize_unhidden_aux (sizeOf child) child le_rfl _ e' hs x hx'

theorem flatten_eq_aux : ∀ n : Nat,
    (∀ e : Entry, sizeOf e ≤ n → flatten e = (preorder e).map projectEntry) ∧
    (∀ l : List Entry, sizeOf l ≤ n →
      flattenList l = (preorderList l).map projectEntry) := by
  intro n
  induction n with
  | zero =>
    constructor
    · intro e he
      exfalso
      cases e
      simp only [Entry.mk.sizeOf_spec] at he
      omega
    · intro l hl
      exfalso
      cases l <;> simp only [List.nil.sizeOf_spec, List.cons.sizeOf_spec] at hl <;> omega
  | succ n ih =>
    constructor
    · intro e he
      cases e with
      | mk path name kind summary hidden deprecated params subcommands =>
        simp only [Entry.mk.sizeOf_spec] at he
        rw [flatten, preorder, List.map_cons]
        rw [ih.2 subcommands (by omega)]
        simp [projectEntry, Entry.path, Entry.name, Entry.kind, Entry.summary,
          Entry.hidden, Entry.deprecated, Entry.params]
    · intro l hl
      cases l with
      | nil => simp [flattenList, preorderList]
      | cons e rest =>
        simp only [List.cons.sizeOf_spec] at hl
        rw [flattenList, preorderList, List.map_append]
        rw [ih.1 e (by omega), ih.2 rest (by omega)]

/-- `_flatten` is the pre-order traversal of its input tree, projected
node by node onto the flat entry shape. -/
theorem flatten_eq_preorder (e : Entry) :
    flatten e = (preorder e).map projectEntry :=
  (flatten_eq_aux (sizeOf e)).1 e le_rfl

theorem preorder_eq (e : Entry) : preorder e = e :: preorderList e.subcommands := by
  cases e
  rw [preorder]
  rfl

/-! ## Demonstration inputs (used by witnesses and counterexamples) -/

/-- Attributes of a hidden command with no help and no parameters. -/
def demoHiddenData : CmdData :=
  { shortHelp := none, help := none, hidden := true, deprecated := false, params := [] }

/-- A root group that is itself hidden and has one hidden child. -/
def demoHiddenTree : Cmd :=
  .group demoHiddenData [("secret", .leaf demoHiddenData)]

/-- A bare visible leaf command. -/
def demoLeaf : Cmd :=
  .leaf { shortHelp := none, help := none, hidden := false, deprecated := false, params := [] }

/-- The catalog `build_click_catalog` produces for `demoLeaf`. -/
def demoLeafCatalog : Catalog :=
  { catalogVersion := 1, generatedAt := "t0", rootCommand := "cli",
    tree := .mk "cli" "cli" "command" "" false false [] [],
    commands := [{ path := "cli", name := "cli", kind := "command", summary := "",
                   hidden := false, deprecated := false, params := [] }] }

/-! ## Claim C1 -/

/-- C1: for every command tree and root, `build_click_catalog` with
`include_hidden = False` yields a catalog (the root entry is present even
for a hidden root) in which every node below the root is unhidden, every
hidden flattened entry can only be the root's projection, and a hidden
non-root node is dropped with its entire subtree (`_serialize_command`
returns `None` for it, so nothing of the subtree reaches either
output). -/
theorem catalogFilteringInvariant (root : Cmd) (rootName now : String) :
    ∃ cat, buildClickCatalog root rootName false now = some cat
      ∧ (∀ x ∈ preorderList cat.tree.subcommands, x.hidden = false)
      ∧ (∀ f ∈ cat.commands, f.hidden = true → f = projectEntry cat.tree)
      ∧ ∀ (c : Cmd) (p : List String), c.data.hidden = true →
          serializeCommand c p false false = none := by
  cases hs : serializeCommand root [rootName] false true with
  | none =>
    have h := serializeCommand_root_isSome root [rootName] false
    simp [hs] at h
  | some t =>
    refine ⟨Catalog.mk 1 now rootName t (flatten t), ?_, ?_, ?_,
      fun c p h => serialize_hidden_none c p h⟩
    · simp [buildClickCatalog, hs]
    · exact serialize_subEntries_unhidden root [rootName] t hs
    · intro f hf hfh
      simp only at hf
      rw [flatten_eq_preorder, preorder_eq, List.map_cons] at hf
      rcases List.mem_cons.mp hf with h | h
      · exact h
      · obtain ⟨x, hx, rfl⟩ := List.mem_map.mp h
        have hx0 := serialize_subEntries_unhidden root [rootName] t hs x hx
        rw [show (projectEntry x).hidden = x.hidden from rfl, hx0] at hfh
        cases hfh

/-- Witness for C1 at a concrete tree whose root and child are both
hidden. -/
theorem catalogFilteringInvariant_witness :
    ∃ cat, buildClickCatalog demoHiddenTree "cli" false "t0" = some cat
      ∧ (∀ x ∈ preorderList cat.tree.subcommands, x.hidden = false)
      ∧ (∀ f ∈ cat.commands, f.hidden = true → f = projectEntry cat.tree)
      ∧ ∀ (c : Cmd) (p : List String), c.data.hidden = true →
          serializeCommand c p false false = none :=
  catalogFilteringInvariant demoHiddenTree "cli" "t0"

/-! ## Claim C2 -/

/-- C2: for every built catalog, the flattened `commands` list is exactly
the pre-order traversal of the already-filtered tree projected node by
node (same `path`, `name`, `kind`, `summary`, `hidden`, `deprecated`,
`params`), with no re-filtering; hence its length equals the number of
nodes of the filtered tree. -/
theorem catalogFlattenProjection (root : Cmd) (rootName : String)
    (includeHidden : Bool) (now : String) (cat : Catalog)
    (h : buildClickCatalog root rootName includeHidden now = some cat) :
    cat.commands = (preorder cat.tree).map projectEntry
      ∧ cat.commands.length = (preorder cat.tree).length := by
  unfold buildClickCatalog at h
  cases hs : serializeCommand root [rootName] includeHidden true with
  | none => rw [hs] at h; simp at h
  | some t =>
    rw [hs] at h
    simp only [Option.map_some'] at h
    cases h
    refine ⟨?_, ?_⟩
    · simpa using flatten_eq_preorder t
    · simp [flatten_eq_preorder t]

/-- Witness for C2: the catalog of a single leaf command, evaluated
concretely. -/
theorem catalogFlattenProjection_witness :
    buildClickCatalog demoLeaf "cli" false "t0" = some demoLeafCatalog
      ∧ demoLeafCatalog.commands = (preorder demoLeafCatalog.tree).map projectEntry
      ∧ demoLeafCatalog.commands.length = (preorder demoLeafCatalog.tree).length := by
  have h : buildClickCatalog demoLeaf "cli" false "t0" = some demoLeafCatalog := by
    simp [buildClickCatalog, serializeCommand, demoLeaf, demoLeafCatalog,
      serializeParams, strOr, pyStrip, pyJoin, flatten, flattenList]
  exact ⟨h, catalogFlattenProjection demoLeaf "cli" false "t0" demoLeafCatalog h⟩

/-! ## Claim C8 — the `summary` field -/

/-- Specification-side definition: the first line of a text. -/
def firstLine (s : String) : String := ⟨s.data.takeWhile (fun c => c != '\n')⟩

/-- Specification-side definition of the summary the code actually
computes: the trimmed short help when that is non-empty, otherwise the
**whole** long help text trimmed, otherwise `""`. -/
def fallbackSummary (shortHelp helpText : Option String) : String :=
  match shortHelp with
  | some s => if s = "" then pyStrip (helpText.getD "") else pyStrip s
  | none => pyStrip (helpText.getD "")

theorem strOr_empty (o : Option String) : strOr o "" = o.getD "" := by
  cases o with
  | none => rfl
  | some s =>
    by_cases hs : s = "" <;> simp [strOr, hs]

theorem strOr_none (b : String) : strOr none b = b := rfl

theorem strOr_some (s b : String) : strOr (some s) b = if s = "" then b else s := rfl

theorem pyStrip_strOr_eq_fallback (shortHelp helpText : Option String) :
    pyStrip (strOr shortHelp (strOr helpText "")) =
      fallbackSummary shortHelp helpText := by
  cases shortHelp with
  | none =>
    rw [strOr_none, strOr_empty]
    rfl
  | some s =>
    by_cases hs : s = ""
    · rw [strOr_some, if_pos hs, strOr_empty]
      simp [fallbackSummary, hs]
    · rw [strOr_some, if_neg hs]
      simp [fallbackSummary, hs]

/-- A leaf with a two-line long help and no short help. -/
def demoMultilineHelp : Cmd :=
  .leaf { shortHelp := none, help := some "line1\nline2", hidden := false,
          deprecated := false, params := [] }

/-- A leaf with a short help that needs trimming. -/
def demoShortHelp : Cmd :=
  .leaf { shortHelp := some " brief ", help := some "long\nhelp", hidden := false,
          deprecated := false, params := [] }

/-- C8 counterexample: the code emits the **entire** long help (trimmed)
as the summary, not its first line — `(command.short_help or command.help
or "").strip()` never splits off the first line. -/
theorem summaryFirstLine_counterexample :
    (serializeCommand demoMultilineHelp ["cli"] false true).map Entry.summary
        = some "line1\nline2"
      ∧ (serializeCommand demoMultilineHelp ["cli"] false true).map Entry.summary
        ≠ some (pyStrip (firstLine "line1\nline2")) := by
  have h : (serializeCommand demoMultilineHelp ["cli"] false true).map Entry.summary
      = some "line1\nline2" := by
    simp only [serializeCommand, demoMultilineHelp, strOr, Entry.summary]
    norm_num
    decide
  refine ⟨h, ?_⟩
  rw [h]
  decide

/-- C8 (amended): the emitted summary is the trimmed short help when the
short help is non-empty, otherwise the whole long help text trimmed,
otherwise the empty string. -/
theorem serializeSummaryWholeHelp (c : Cmd) (p : List String)
    (includeHidden : Bool) (isRoot : Bool) (e : Entry)
    (h : serializeCommand c p includeHidden isRoot = some e) :
    e.summary = fallbackSummary c.data.shortHelp c.data.help := by
  cases c with
  | leaf data =>
    rw [serializeCommand] at h
    split at h
    · cases h
    · cases h
      simp [Entry.summary, Cmd.data, pyStrip_strOr_eq_fallback]
  | group data cmds =>
    rw [serializeCommand] at h
    split at h
    · cases h
    · cases h
      simp [Entry.summary, Cmd.data, pyStrip_strOr_eq_fallback]

/-- Witness for the amended C8 at a concrete command. -/
theorem serializeSummaryWholeHelp_witness :
    ∃ e, serializeCommand demoShortHelp ["cli"] false true = some e
      ∧ e.summary = fallbackSummary demoShortHelp.data.shortHelp
          demoShortHelp.data.help := by
  obtain ⟨e, he⟩ := Option.isSome_iff_exists.mp
    (serializeCommand_root_isSome demoShortHelp ["cli"] false)
  exact ⟨e, he, serializeSummaryWholeHelp demoShortHelp ["cli"] false true e he⟩

/-! ## Claim C9 — type coercion of collections -/

/-- C9 counterexample: a one-element `set` is not coerced element-wise to
an array; `_jsonable` has no `set` branch, so it falls through to the
`repr` fallback string. -/
theorem jsonableSet_counterexample :
    jsonable (.pySet [.pyInt 1]) = .str "\x7b1\x7d"
      ∧ jsonable (.pySet [.pyInt 1]) ≠ .arr [jsonable (.pyInt 1)] := by
  refine ⟨rfl, ?_⟩
  rw [show jsonable (.pySet [.pyInt 1]) = .str "\x7b1\x7d" from rfl,
    show jsonable (.pyInt 1) = .num 1 from rfl]
  simp

/-- C9 (amended): coercion always terminates in a JSON-safe value (by the
type of `jsonable`); lists and tuples are mapped element-wise and
recursively, dicts become string-keyed objects, and the unset sentinel
becomes `null` — but a `set` falls through to the `repr` fallback and
becomes a plain string. -/
theorem jsonableCollections (xs : List PyVal) (kvs : List (PyVal × PyVal))
    (payload : PyVal) :
    jsonable (.pyList xs) = .arr (xs.map jsonable)
      ∧ jsonable (.pyTuple xs) = .arr (xs.map jsonable)
      ∧ jsonable (.pyDict kvs) = .obj (kvs.map fun kv => (pyStrOf kv.1, jsonable kv.2))
      ∧ jsonable (.pyEnum "Sentinel" "UNSET" payload) = .null
      ∧ jsonable (.pySet xs) = .str (pyRepr (.pySet xs)) := by
  refine ⟨?_, ?_, ?_, ?_, ?_⟩ <;>
    simp [jsonable, jsonableList_eq_map, jsonableKV_eq_map]

/-! ## Text renderer (`render_catalog_text`, catalog.py lines 160–235) -/

/-- Model of the JSON string quoting done by `json.dumps`; escaping of
special characters is elided (no claim depends on it). -/
def jsonQuote (s : String) : String := "\"" ++ s ++ "\""

mutual

/-- Model of `json.dumps(value, ensure_ascii=False)` with its default
separators, as called by `_fmt`. -/
def jsonDumps : Json → String
  | .null => "null"
  | .str s => jsonQuote s
  | .num n => toString n
  | .bool b => if b then "true" else "false"
  | .arr xs => "[" ++ pyJoin ", " (jsonDumpsList xs) ++ "]"
  | .obj kvs => "\x7b" ++ pyJoin ", " (jsonDumpsKV kvs) ++ "\x7d"

def jsonDumpsList : List Json → List String
  | [] => []
  | v :: vs => jsonDumps v :: jsonDumpsList vs

def jsonDumpsKV : List (String × Json) → List String
  | [] => []
  | (k, v) :: rest => (jsonQuote k ++ ": " ++ jsonDumps v) :: jsonDumpsKV rest

end

/-- Embedding of `_fmt` (catalog.py lines 178–179): `None` (our `.null`)
renders as the literal `null`, anything else as compact JSON. -/
def fmt (value : Json) : String :=
  match value with
  | .null => "null"
  | value => jsonDumps value

/-- Does the serialized parameter have kind `"option"`? -/
def isOptionParam : SParam → Bool
  | .option .. => true
  | .argument .. => false

/-- The usage token `_usage_for` contributes for one parameter of kind
`"argument"` (uppercased name, `nargs` expansion, `[...]` when
optional); `int(param.get("nargs", 1) or 1)` turns a zero `nargs` into 1. -/
def argUsageToken : SParam → Option String
  | .argument name required _ nargs _ =>
    let upperName := pyUpper name
    let nargs := if nargs = 0 then 1 else nargs
    let rendered :=
      if nargs = -1 then upperName ++ "..."
      else if nargs > 1 then pyJoin " " (List.replicate nargs.toNat upperName)
      else upperName
    some (if required then rendered else "[" ++ rendered ++ "]")
  | .option .. => none

/-- Embedding of `_usage_for` (catalog.py lines 160–175). -/
def usageFor (path : String) (params : List SParam) : String :=
  pyJoin " "
    (path :: (if params.any isOptionParam then ["[OPTIONS]"] else [])
      ++ params.filterMap argUsageToken)

/-- The lines the `params:` section of `render_catalog_text` emits for one
serialized parameter (catalog.py lines 208–234). -/
def paramLines : SParam → List String
  | .argument name required defaultV nargs paramType =>
    [(("- argument `" ++ name) ++ ("`, type=" ++ paramType.name)
      ++ (", required=" ++ pyBoolStr required)) ++ (", nargs=" ++ toString nargs)
      ++ (", default=" ++ fmt defaultV)]
  | .option _ flags helpText required defaultV multiple _ isFlag _ paramType =>
    let flagsStr := pyJoin ", " flags
    let line := ("- option `" ++ flagsStr) ++ ("`, type=" ++ paramType.name)
      ++ (", required=" ++ pyBoolStr required) ++ (", default=" ++ fmt defaultV)
    let line := if isFlag then line ++ ", is_flag=True" else line
    let line := if multiple then line ++ ", multiple=True" else line
    if pyStrip helpText = "" then [line] else [line, "  help: " ++ pyStrip helpText]

/-- The lines the renderer's per-command loop appends for one flattened
entry: nothing when the trimmed path is empty, else a blank separator, the
`### <path>` header, `kind:`, an optional `summary:`, the synthesized
`usage:` line and the parameter section. -/
def commandBlock (command : FlatEntry) : List String :=
  let path := pyStrip command.path
  if path = "" then []
  else
    ["", "### " ++ path, "kind: " ++ command.kind]
      ++ (if pyStrip command.summary = "" then []
          else ["summary: " ++ pyStrip command.summary])
      ++ ["usage: " ++ usageFor path command.params]
      ++ (if command.params.isEmpty then ["params: none"]
          else "params:" :: command.params.flatMap paramLines)

/-- The header lines of `render_catalog_text` (version, timestamp, root
name, blank separator, command count). -/
def headerLines (catalog : Catalog) : List String :=
  ["catalog_version: " ++ toString catalog.catalogVersion,
   "generated_at: " ++ catalog.generatedAt,
   "root_command: " ++ catalog.rootCommand,
   "",
   "commands: " ++ toString catalog.commands.length]

/-- The full `lines` list `render_catalog_text` accumulates. -/
def renderLines (catalog : Catalog) : List String :=
  headerLines catalog ++ catalog.commands.flatMap commandBlock

/-- Embedding of `render_catalog_text` (catalog.py lines 182–235):
`"\n".join(lines)`. -/
def renderCatalogText (catalog : Catalog) : String :=
  pyJoin "\n" (renderLines catalog)

/-! ### Counting `### <path>` block headers -/

/-- Specification-side: does a rendered line start with `"### "`? -/
def isBlockLine (line : String) : Bool := line.data.take 4 == "### ".data

theorem notBlockLine_append (pre s : String) (h4 : 4 ≤ pre.data.length)
    (hne : (pre.data.take 4 == "### ".data) = false) :
    isBlockLine (pre ++ s) = false := by
  unfold isBlockLine
  rw [String.data_append, List.take_append_of_le_length h4, hne]

theorem isBlockLine_header (s : String) : isBlockLine ("### " ++ s) = true := by
  unfold isBlockLine
  rw [String.data_append, List.take_append_of_le_length (by decide)]
  decide

theorem notBlock_empty : isBlockLine "" = false := by decide

theorem notBlock_paramsNone : isBlockLine "params: none" = false := by decide

theorem notBlock_paramsHeader : isBlockLine "params:" = false := by decide

theorem notBlock_kind (s : String) : isBlockLine ("kind: " ++ s) = false :=
  notBlockLine_append _ _ (by decide) (by decide)

theorem notBlock_summary (s : String) : isBlockLine ("summary: " ++ s) = false :=
  notBlockLine_append _ _ (by decide) (by decide)

theorem notBlock_usage (s : String) : isBlockLine ("usage: " ++ s) = false :=
  notBlockLine_append _ _ (by decide) (by decide)

theorem notBlock_argLine (s : String) : isBlockLine ("- argument `" ++ s) = false :=
  notBlockLine_append _ _ (by decide) (by decide)

theorem notBlock_optionLine (s : String) : isBlockLine ("- option `" ++ s) = false :=
  notBlockLine_append _ _ (by decide) (by decide)

theorem notBlock_helpLine (s : String) : isBlockLine ("  help: " ++ s) = false :=
  notBlockLine_append _ _ (by decide) (by decide)

theorem notBlock_version (s : String) :
    isBlockLine ("catalog_version: " ++ s) = false :=
  notBlockLine_append _ _ (by decide) (by decide)

theorem notBlock_generated (s : String) :
    isBlockLine ("generated_at: " ++ s) = false :=
  notBlockLine_append _ _ (by decide) (by decide)

theorem notBlock_rootCommand (s : String) :
    isBlockLine ("root_command: " ++ s) = false :=
  notBlockLine_append _ _ (by decide) (by decide)

theorem notBlock_commandsCount (s : String) :
    isBlockLine ("commands: " ++ s) = false :=
  notBlockLine_append _ _ (by decide) (by decide)

theorem filter_paramLines (p : SParam) : (paramLines p).filter isBlockLine = [] := by
  cases p with
  | argument name required defaultV nargs paramType =>
    simp [paramLines, String.append_assoc, notBlock_argLine]
  | option name flags helpText required defaultV multiple nargs isFlag countAttr paramType =>
    simp only [paramLines]
    split_ifs <;>
      simp [String.append_assoc, notBlock_optionLine, notBlock_helpLine]

theorem filter_flatMap_paramLines (ps : List SParam) :
    ((ps.flatMap paramLines).filter isBlockLine) = [] := by
  induction ps with
  | nil => simp
  | cons p rest ih =>
    simp [List.flatMap_cons, List.filter_append, filter_paramLines, ih]

theorem filter_commandBlock (c : FlatEntry) :
    (commandBlock c).filter isBlockLine
      = if pyStrip c.path = "" then [] else ["### " ++ pyStrip c.path] := by
  by_cases hpath : pyStrip c.path = ""
  · simp [commandBlock, hpath]
  · simp only [commandBlock, if_neg hpath]
    simp [List.filter_append, isBlockLine_header, notBlock_empty, notBlock_kind,
      notBlock_summary, notBlock_usage, notBlock_paramsNone, notBlock_paramsHeader,
      filter_flatMap_paramLines, apply_ite (List.filter isBlockLine)]

theorem filter_headerLines (catalog : Catalog) :
    (headerLines catalog).filter isBlockLine = [] := by
  simp [headerLines, notBlock_version, notBlock_generated, notBlock_rootCommand,
    notBlock_empty, notBlock_commandsCount]

theorem filter_flatMap_commandBlock (cs : List FlatEntry) :
    ((cs.flatMap commandBlock).filter isBlockLine)
      = (cs.filter fun c => !(pyStrip c.path == "")).map
          (fun c => "### " ++ pyStrip c.path) := by
  induction cs with
  | nil => simp
  | cons c rest ih =>
    rw [List.flatMap_cons, List.filter_append, ih, filter_commandBlock]
    by_cases h : pyStrip c.path = ""
    · simp [h]
    · simp [h]

/-! ## Claim C10 -/

/-- A catalog whose single flattened entry has an empty path (possible for
catalogs not produced by the builder, which the renderer accepts). -/
def demoEmptyPathCatalog : Catalog :=
  { catalogVersion := 1, generatedAt := "t0", rootCommand := "cli",
    tree := .mk "" "cli" "command" "" false false [] [],
    commands := [{ path := "", name := "cli", kind := "command", summary := "",
                   hidden := false, deprecated := false, params := [] }] }

/-- C10 counterexample: for a catalog with one flattened entry whose path
is empty, the header still counts one command but the renderer emits zero
`### <path>` blocks, so the header count does not equal the number of
blocks and the entry gets no block. -/
theorem renderBlocks_counterexample :
    "commands: 1" ∈ renderLines demoEmptyPathCatalog
      ∧ demoEmptyPathCatalog.commands.length = 1
      ∧ ((renderLines demoEmptyPathCatalog).filter isBlockLine).length = 0
      ∧ ((renderLines demoEmptyPathCatalog).filter isBlockLine).length
          ≠ demoEmptyPathCatalog.commands.length := by
  refine ⟨?_, by decide, by decide, by decide⟩
  decide

/-- C10 (amended): the rendered text joins the line list; the first five
lines are the header (version, timestamp, root name, count of the
flattened list); and the `### <path>` block headers are exactly one per
flattened entry whose trimmed path is non-empty, in the list's existing
order — so the header count equals the block count exactly when every
entry has a non-empty trimmed path (as builder-produced catalogs with a
non-blank root name do); entries with an empty path are skipped. -/
theorem renderHeaderAndBlocks (catalog : Catalog) :
    renderCatalogText catalog = pyJoin "\n" (renderLines catalog)
      ∧ (renderLines catalog).take 5 = headerLines catalog
      ∧ headerLines catalog =
          ["catalog_version: " ++ toString catalog.catalogVersion,
           "generated_at: " ++ catalog.generatedAt,
           "root_command: " ++ catalog.rootCommand,
           "",
           "commands: " ++ toString catalog.commands.length]
      ∧ (renderLines catalog).filter isBlockLine
          = (catalog.commands.filter fun c => !(pyStrip c.path == "")).map
              (fun c => "### " ++ pyStrip c.path) := by
  refine ⟨rfl, ?_, rfl, ?_⟩
  · unfold renderLines
    rw [List.take_append_of_le_length (by simp [headerLines])]
    simp [headerLines]
  · unfold renderLines
    rw [List.filter_append, filter_headerLines, filter_flatMap_commandBlock]
    simp

/-! ## Injection layer (`inject.py`)

Click groups are modelled with an identity (`id`, standing for the object
identity that keys the `WeakKeyDictionary`) and their `commands` dict;
commands are modelled by an inductive with explicit host-defined commands
and the commands `_build_llm_command` creates.  `_build_llm_command`
creates a fresh `click.Command` bound to the group; the model identifies
such a command by the bound group's identity and its name — no claim
depends on distinguishing two builds for the same group and name. -/

inductive CommandObj where
  | explicitCmd (tag : Nat)
  | llmCmd (groupId : Nat) (commandName : String)
deriving DecidableEq

structure Group where
  id : Nat
  commands : List (String × CommandObj)

/-- A `click.Context`; the injection code only reads `ctx.parent`. -/
inductive Ctx where
  | mk (parent : Option Ctx)

def Ctx.parent : Ctx → Option Ctx
  | .mk p => p

/-- The `_INJECTED_COMMANDS` registry: group identity → cached command.
The weak association (entries dropped when a group is collected) is not
modelled; no claim depends on it. -/
abbrev Registry := List (Nat × CommandObj)

/-- Embedding of `_build_llm_command` (inject.py lines 23–48): the
catalog-emitting command bound to `root_group` under `command_name`. -/
def buildLlmCommand (rootGroup : Group) (commandName : String) : CommandObj :=
  .llmCmd rootGroup.id commandName

/-- Embedding of `attach` (inject.py lines 51–57): return the existing
command when the name is already present, else build one, register it
under the name (`group.add_command`) and return it.  The updated group is
returned explicitly (the source mutates `group.commands`). -/
def attach (group : Group) (commandName : String) : CommandObj × Group :=
  match group.commands.lookup commandName with
  | some command => (command, group)
  | none =>
    let command := buildLlmCommand group commandName
    (command, { group with commands := group.commands ++ [(commandName, command)] })

/-- Embedding of `patched_get_command` (inject.py lines 81–98),
parameterized by the saved original resolver `_ORIG_GET_COMMAND` and the
active reserved name; the registry is threaded explicitly (the `_LOCK`
critical section around the check-or-create step is a no-op in this
sequential model). -/
def patchedGetCommand (origGet : Group → Ctx → String → Option CommandObj)
    (patchName : String) (registry : Registry)
    (self : Group) (ctx : Ctx) (cmdName : String) :
    Option CommandObj × Registry :=
  match origGet self ctx cmdName with
  | some command => (some command, registry)
  | none =>
    if cmdName ≠ patchName then (none, registry)
    else if (ctx.parent).isSome then (none, registry)
    else if (self.commands.lookup patchName).isSome then (none, registry)
    else
      match registry.lookup self.id with
      | some injected => (some injected, registry)
      | none =>
        let injected := buildLlmCommand self patchName
        (some injected, (self.id, injected) :: registry)

/-- Embedding of `patched_list_commands` (inject.py lines 100–109): append
the reserved name and re-sort only for a parentless context where the name
is neither an explicit command nor already listed. -/
def patchedListCommands (origList : Group → Ctx → List String)
    (patchName : String) (self : Group) (ctx : Ctx) : List String :=
  let names := origList self ctx
  if (ctx.parent).isNone && (self.commands.lookup patchName).isNone
      && !(names.contains patchName)
  then sortLe (fun a b => decide (a ≤ b)) (names ++ [patchName])
  else names

/-! ### The patch/unpatch state machine over the module globals -/

/-- A value held by the `click.Group.get_command` / `list_commands`
attribute slots: the framework's pristine implementation or the wrapper
`autopatch` installs (the wrapper reads the module globals at call time,
so only which of the two is installed is observable). -/
inductive Slot where
  | originalFn
  | hookFn
deriving DecidableEq

/-- The module globals of inject.py (lines 14–20) together with the two
patched attribute slots of `click.Group`. -/
structure PatchWorld where
  getCommandSlot : Slot
  listCommandsSlot : Slot
  patched : Bool
  patchCommandName : String
  origGetCommand : Option Slot
  origListCommands : Option Slot
deriving DecidableEq

/-- Module import time: nothing patched, `_PATCH_COMMAND_NAME = "llm"`,
both saved entry points `None`. -/
def initialWorld : PatchWorld :=
  { getCommandSlot := .originalFn, listCommandsSlot := .originalFn,
    patched := false, patchCommandName := "llm",
    origGetCommand := none, origListCommands := none }

/-- Embedding of `autopatch` (inject.py lines 60–113): when already
patched, raise (`some` error message, globals untouched) iff the name
differs, else no-op; otherwise save both current entry points, install the
hooks, record the name and set `_PATCHED`. -/
def autopatch (w : PatchWorld) (commandName : String) : Option String × PatchWorld :=
  if w.patched then
    if w.patchCommandName ≠ commandName then
      (some ("click-llm already patched with command name \x27"
        ++ w.patchCommandName ++ "\x27"), w)
    else (none, w)
  else
    (none,
      { getCommandSlot := .hookFn, listCommandsSlot := .hookFn,
        patched := true, patchCommandName := commandName,
        origGetCommand := some w.getCommandSlot,
        origListCommands := some w.listCommandsSlot })

/-- Embedding of `unpatch` (inject.py lines 116–125): no-op when not
patched; otherwise restore the two saved entry points (asserted non-null:
the `none` result is the assertion failure) and clear `_PATCHED`.  The
saved references themselves are *not* cleared. -/
def unpatch (w : PatchWorld) : Option PatchWorld :=
  if w.patched = false then some w
  else
    match w.origGetCommand, w.origListCommands with
    | some g, some l =>
      some { w with getCommandSlot := g, listCommandsSlot := l, patched := false }
    | _, _ => none

/-- The states reachable from module import by `autopatch` / `unpatch`
calls (an `autopatch` that raises leaves the state unchanged, so it is
covered by `patchStep` as well). -/
inductive Reachable : PatchWorld → Prop where
  | init : Reachable initialWorld
  | patchStep (w : PatchWorld) (n : String) (h : Reachable w) :
      Reachable (autopatch w n).2
  | unpatchStep (w w2 : PatchWorld) (h : Reachable w)
      (hu : unpatch w = some w2) : Reachable w2

/-! ### Association-list lemmas for `group.commands` -/

theorem beq_symm_false {a b : String} (h : (a == b) = false) : (b == a) = false := by
  simp only [beq_eq_false_iff_ne] at *
  exact fun e => h e.symm

theorem lookup_append_none (l l2 : List (String × CommandObj)) (k : String)
    (h : l.lookup k = none) : (l ++ l2).lookup k = l2.lookup k := by
  induction l with
  | nil => simp
  | cons e rest ih =>
    obtain ⟨a, b⟩ := e
    rw [List.lookup] at h
    rw [List.cons_append, List.lookup]
    cases hka : (k == a) with
    | true => rw [hka] at h; cases h
    | false => rw [hka] at h; exact ih h

theorem lookup_none_filter (l : List (String × CommandObj)) (k : String)
    (h : l.lookup k = none) : l.filter (fun e => e.1 == k) = [] := by
  induction l with
  | nil => rfl
  | cons e rest ih =>
    obtain ⟨a, b⟩ := e
    rw [List.lookup] at h
    cases hka : (k == a) with
    | true => rw [hka] at h; cases h
    | false =>
      rw [hka] at h
      simp only [List.filter_cons, beq_symm_false hka]
      exact ih h

theorem notMemKeys_filter (l : List (String × CommandObj)) (k : String)
    (h : k ∉ l.map Prod.fst) : l.filter (fun e => e.1 == k) = [] := by
  induction l with
  | nil => rfl
  | cons e rest ih =>
    obtain ⟨a, b⟩ := e
    simp only [List.map_cons, List.mem_cons] at h
    push_neg at h
    have hab : (a == k) = false := by
      simp only [beq_eq_false_iff_ne]
      exact fun hk => h.1 hk.symm
    simp only [List.filter_cons, hab]
    exact ih h.2

theorem lookup_some_filter (l : List (String × CommandObj)) (k : String)
    (v : CommandObj) (hnodup : (l.map Prod.fst).Nodup)
    (h : l.lookup k = some v) : l.filter (fun e => e.1 == k) = [(k, v)] := by
  induction l with
  | nil => cases h
  | cons e rest ih =>
    obtain ⟨a, b⟩ := e
    simp only [List.map_cons, List.nodup_cons] at hnodup
    rw [List.lookup] at h
    cases hka : (k == a) with
    | true =>
      rw [hka] at h
      cases h
      have hak : k = a := by simpa using hka
      subst hak
      simp [List.filter_cons, notMemKeys_filter rest k hnodup.1]
    | false =>
      rw [hka] at h
      simp only [List.filter_cons, beq_symm_false hka]
      exact ih hnodup.2 h

/-! ## Claim C3 -/

/-- C3: the patched resolver never shadows: whenever the original resolver
returns a command, the patched resolver returns it (and the registry)
unmodified; and whenever the group's explicit command table contains the
reserved name, the patched resolver returns exactly what the original
resolver returns — never the injected command. -/
theorem patchedNeverShadows
    (origGet : Group → Ctx → String → Option CommandObj) (patchName : String)
    (registry : Registry) (self : Group) (ctx : Ctx) (cmdName : String) :
    (∀ c, origGet self ctx cmdName = some c →
        patchedGetCommand origGet patchName registry self ctx cmdName
          = (some c, registry))
      ∧ ((self.commands.lookup patchName).isSome →
          (patchedGetCommand origGet patchName registry self ctx cmdName).1
            = origGet self ctx cmdName) := by
  constructor
  · intro c hc
    simp [patchedGetCommand, hc]
  · intro hlook
    cases hc : origGet self ctx cmdName with
    | some c => simp [patchedGetCommand, hc]
    | none =>
      by_cases hn : cmdName = patchName
      · subst hn
        by_cases hp : (ctx.parent).isSome <;>
          simp [patchedGetCommand, hc, hp, hlook]
      · simp [patchedGetCommand, hc, hn]

/-- A group with a single explicit command. -/
def demoGroup : Group := { id := 0, commands := [("hello", .explicitCmd 0)] }

/-- A root invocation context (no parent). -/
def demoRootCtx : Ctx := .mk none

/-- A nested invocation context (has a parent). -/
def demoChildCtx : Ctx := .mk (some (.mk none))

/-- Witness for C3: an original resolver that finds an explicit command is
passed through untouched. -/
theorem patchedNeverShadows_witness :
    patchedGetCommand (fun _ _ _ => some (.explicitCmd 7)) "llm" [] demoGroup
        demoRootCtx "llm" = (some (.explicitCmd 7), []) :=
  (patchedNeverShadows (fun _ _ _ => some (.explicitCmd 7)) "llm" [] demoGroup
    demoRootCtx "llm").1 (.explicitCmd 7) rfl

/-! ## Claim C6 -/

/-- C6: while patched, a context with a parent is never injected into:
resolution returns exactly the original resolver's result with the
registry untouched, and listing returns exactly the original enumeration
(the reserved name is never added). -/
theorem rootOnlyInjection
    (origGet : Group → Ctx → String → Option CommandObj)
    (origList : Group → Ctx → List String) (patchName : String)
    (registry : Registry) (self : Group) (ctx : Ctx) (cmdName : String)
    (h : (ctx.parent).isSome = true) :
    patchedGetCommand origGet patchName registry self ctx cmdName
        = (origGet self ctx cmdName, registry)
      ∧ patchedListCommands origList patchName self ctx = origList self ctx := by
  constructor
  · cases hc : origGet self ctx cmdName with
    | some c => simp [patchedGetCommand, hc]
    | none =>
      by_cases hn : cmdName = patchName
      · subst hn; simp [patchedGetCommand, hc, h]
      · simp [patchedGetCommand, hc, hn]
  · have hnone : (ctx.parent).isNone = false := by
      simp [Option.isNone_eq_false_iff, ← Option.isSome_iff_exists, h]
    simp [patchedListCommands, hnone]

/-- Witness for C6 at a nested context. -/
theorem rootOnlyInjection_witness :
    patchedGetCommand (fun _ _ _ => none) "llm" [] demoGroup demoChildCtx "llm"
        = (none, [])
      ∧ patchedListCommands (fun _ _ => ["hello"]) "llm" demoGroup demoChildCtx
        = ["hello"] :=
  rootOnlyInjection (fun _ _ _ => none) (fun _ _ => ["hello"]) "llm" []
    demoGroup demoChildCtx "llm" rfl

/-! ## Claim C5 -/

/-- C5: `attach` is idempotent.  A second `attach` returns the same
command and leaves the group unchanged; after the first call the group has
exactly one entry under the name (given the dict invariant that the
original command names are distinct); and when the name is already
present, `attach` returns the existing command — whoever created it — with
the group untouched. -/
theorem attachIdempotent (group : Group) (commandName : String)
    (hnodup : (group.commands.map Prod.fst).Nodup) :
    (attach ((attach group commandName).2) commandName).1
        = (attach group commandName).1
      ∧ (attach ((attach group commandName).2) commandName).2
        = (attach group commandName).2
      ∧ ((attach group commandName).2.commands.filter
          (fun e => e.1 == commandName)).length = 1
      ∧ ∀ c, group.commands.lookup commandName = some c →
          attach group commandName = (c, group) := by
  cases hl : group.commands.lookup commandName with
  | some c =>
    have h1 : attach group commandName = (c, group) := by simp [attach, hl]
    refine ⟨by simp [h1], by simp [h1], ?_, ?_⟩
    · rw [h1]
      simp [lookup_some_filter group.commands commandName c hnodup hl]
    · intro c2 hc2
      cases hc2
      exact h1
  | none =>
    have h1 : attach group commandName
        = (buildLlmCommand group commandName,
           { group with commands := group.commands
              ++ [(commandName, buildLlmCommand group commandName)] }) := by
      simp [attach, hl]
    have h2 : (group.commands
        ++ [(commandName, buildLlmCommand group commandName)]).lookup commandName
        = some (buildLlmCommand group commandName) := by
      rw [lookup_append_none _ _ _ hl]
      simp [List.lookup]
    refine ⟨?_, ?_, ?_, ?_⟩
    · rw [h1]; simp [attach, h2]
    · rw [h1]; simp [attach, h2]
    · rw [h1]
      simp only [List.filter_append, List.length_append,
        lookup_none_filter group.commands commandName hl]
      simp
    · intro c2 hc2
      cases hc2

/-- Witness for C5 at a concrete group that does not yet carry the
reserved name. -/
theorem attachIdempotent_witness :
    (attach ((attach demoGroup "llm").2) "llm").1 = (attach demoGroup "llm").1
      ∧ (attach ((attach demoGroup "llm").2) "llm").2 = (attach demoGroup "llm").2
      ∧ ((attach demoGroup "llm").2.commands.filter
          (fun e => e.1 == "llm")).length = 1
      ∧ ∀ c, demoGroup.commands.lookup "llm" = some c →
          attach demoGroup "llm" = (c, demoGroup) :=
  attachIdempotent demoGroup "llm" (by decide)

/-! ## Claim C4 -/

/-- C4: calling `autopatch` while already patched raises the conflict
error iff the requested name differs from the active one, leaves the whole
state (globals and attribute slots) unchanged whether it raises or not,
and is a no-op for the currently active name. -/
theorem autopatchConflict (w : PatchWorld) (commandName : String)
    (h : w.patched = true) :
    ((autopatch w commandName).1.isSome ↔ commandName ≠ w.patchCommandName)
      ∧ (autopatch w commandName).2 = w
      ∧ autopatch w w.patchCommandName = (none, w) := by
  refine ⟨?_, ?_, by simp [autopatch, h]⟩
  · by_cases hn : w.patchCommandName = commandName
    · simp [autopatch, h, hn]
    · simp [autopatch, h, hn]
      exact fun e => hn e.symm
  · by_cases hn : w.patchCommandName = commandName <;> simp [autopatch, h, hn]

/-- The state after patching the initial state under the name `"a"`. -/
def demoPatchedWorld : PatchWorld := (autopatch initialWorld "a").2

/-- Witness for C4: patched under `"a"`, a request for `"b"` raises and
changes nothing, and a repeated `"a"` is a no-op. -/
theorem autopatchConflict_witness :
    demoPatchedWorld.patched = true
      ∧ (((autopatch demoPatchedWorld "b").1.isSome
            ↔ "b" ≠ demoPatchedWorld.patchCommandName)
          ∧ (autopatch demoPatchedWorld "b").2 = demoPatchedWorld
          ∧ autopatch demoPatchedWorld demoPatchedWorld.patchCommandName
              = (none, demoPatchedWorld)) :=
  ⟨rfl, autopatchConflict demoPatchedWorld "b" rfl⟩

/-! ## Claim C7 -/

/-- The state after `autopatch "a"` followed by `unpatch()`. -/
def demoUnpatchedWorld : PatchWorld :=
  { getCommandSlot := .originalFn, listCommandsSlot := .originalFn,
    patched := false, patchCommandName := "a",
    origGetCommand := some .originalFn, origListCommands := some .originalFn }

/-- C7 counterexample: after `autopatch "a"; unpatch()` the process is in
a reachable unpatched state whose two saved references are still non-null
— `unpatch` restores the entry points and clears `_PATCHED` but never
resets `_ORIG_GET_COMMAND` / `_ORIG_LIST_COMMANDS` to `None`, so
"unpatched ⇒ both saved references are null" fails. -/
theorem patchStateInvariant_counterexample :
    unpatch demoPatchedWorld = some demoUnpatchedWorld
      ∧ Reachable demoUnpatchedWorld
      ∧ demoUnpatchedWorld.patched = false
      ∧ demoUnpatchedWorld.origGetCommand ≠ none
      ∧ demoUnpatchedWorld.origListCommands ≠ none := by
  have h1 : unpatch demoPatchedWorld = some demoUnpatchedWorld := by decide
  refine ⟨h1, ?_, by decide, by decide, by decide⟩
  exact Reachable.unpatchStep demoPatchedWorld demoUnpatchedWorld
    (Reachable.patchStep initialWorld "a" Reachable.init) h1

/-- C7 (amended): in every reachable state, patched implies both saved
references are non-null, and `unpatch` then succeeds, restores exactly the
two saved entry points into the attribute slots and clears the patched
flag — but it leaves the two saved references set, so after the first
successful patch they are never null again (the full "unpatched ⇒ both
null" only holds for states no patch has touched, such as the initial
one). -/
theorem patchStateInvariant (w : PatchWorld) (h : Reachable w) :
    (w.patched = true → (w.origGetCommand.isSome ∧ w.origListCommands.isSome)
      ∧ ∃ w2, unpatch w = some w2
          ∧ w2.patched = false
          ∧ some w2.getCommandSlot = w.origGetCommand
          ∧ some w2.listCommandsSlot = w.origListCommands
          ∧ w2.origGetCommand = w.origGetCommand
          ∧ w2.origListCommands = w.origListCommands)
      ∧ (w = initialWorld →
          w.origGetCommand = none ∧ w.origListCommands = none) := by
  have key : ∀ v, Reachable v → v.patched = true →
      v.origGetCommand.isSome ∧ v.origListCommands.isSome := by
    intro v hv
    induction hv with
    | init => intro hp; simp [initialWorld] at hp
    | patchStep v n hv ih =>
      by_cases hp : v.patched
      · by_cases hn : v.patchCommandName = n <;>
          simpa [autopatch, hp, hn] using ih
      · simp [autopatch, hp]
    | unpatchStep v v2 hv hu ih =>
      intro hp
      by_cases hvp : v.patched
      · obtain ⟨hg, hl⟩ := ih hvp
        obtain ⟨g, hg2⟩ := Option.isSome_iff_exists.mp hg
        obtain ⟨l, hl2⟩ := Option.isSome_iff_exists.mp hl
        rw [unpatch, if_neg (by simp [hvp]), hg2, hl2] at hu
        cases hu
        simp at hp
      · rw [unpatch, if_pos (by simp [hvp])] at hu
        cases hu
        exact absurd hp hvp
  refine ⟨?_, fun he => by rw [he]; exact ⟨rfl, rfl⟩⟩
  intro hp
  obtain ⟨hg, hl⟩ := key w h hp
  obtain ⟨g, hg2⟩ := Option.isSome_iff_exists.mp hg
  obtain ⟨l, hl2⟩ := Option.isSome_iff_exists.mp hl
  refine ⟨⟨hg, hl⟩, ?_⟩
  refine ⟨{ w with getCommandSlot := g, listCommandsSlot := l, patched := false },
    ?_, rfl, by simp [hg2], by simp [hl2], by simp [hg2], by simp [hl2]⟩
  rw [unpatch, if_neg (by simp [hp]), hg2, hl2]

/-- Witness for the amended C7 at the concrete reachable patched state. -/
theorem patchStateInvariant_witness :
    (demoPatchedWorld.patched = true →
        (demoPatchedWorld.origGetCommand.isSome
          ∧ demoPatchedWorld.origListCommands.isSome)
        ∧ ∃ w2, unpatch demoPatchedWorld = some w2
            ∧ w2.patched = false
            ∧ some w2.getCommandSlot = demoPatchedWorld.origGetCommand
            ∧ some w2.listCommandsSlot = demoPatchedWorld.origListCommands
            ∧ w2.origGetCommand = demoPatchedWorld.origGetCommand
            ∧ w2.origListCommands = demoPatchedWorld.origListCommands)
      ∧ (demoPatchedWorld = initialWorld →
          demoPatchedWorld.origGetCommand = none
            ∧ demoPatchedWorld.origListCommands = none) :=
  patchStateInvariant demoPatchedWorld
    (Reachable.patchStep initialWorld "a" Reachable.init)

end ClickLLM
